import Mathlib

/-!
Verification of the message-statistics aggregation engine of `discord-stats`
(`src/discord_stats/collectors/message_stats.py`), as a shallow embedding.

Python `Counter`/`dict` objects are modelled as association lists kept in
insertion order (a `+=` on a present key updates it in place, a new key is
appended at the end, exactly the iteration-order behaviour of CPython
dictionaries that `Counter.most_common` relies on).  `datetime` values are
modelled as integer second timestamps, so `timedelta.days` is floor division
by 86400.  A raised-and-caught exception is modelled by an `Except`/`Option`
value consumed by the function that contains the `try`/`except`.
-/

/-- Lookup in an insertion-ordered association list (Python `dict.get`). -/
def dictGet {α : Type} : List (String × α) → String → Option α
  | [], _ => none
  | (a, v) :: rest, k => if a = k then some v else dictGet rest k

/-- Write `d[k] = v` on an insertion-ordered association list: overwrite the value
of a present key in place, append a missing key at the end. -/
def dictSet {α : Type} : List (String × α) → String → α → List (String × α)
  | [], k, v => [(k, v)]
  | (a, w) :: rest, k, v =>
      if a = k then (a, v) :: rest else (a, w) :: dictSet rest k v

/-- Perform `counter[k] += n` on a `Counter` modelled as an association list:
a present key is incremented in place, a missing key is appended with
count `n` (a fresh `Counter` entry). -/
def counterAdd : List (String × Nat) → String → Nat → List (String × Nat)
  | [], k, n => [(k, n)]
  | (a, c) :: rest, k, n =>
      if a = k then (a, c + n) :: rest else (a, c) :: counterAdd rest k n

/-- Read `counter[k]` off a `Counter`: 0 for a missing key. -/
def counterGet : List (String × Nat) → String → Nat
  | [], _ => 0
  | (a, c) :: rest, k => if a = k then c else counterGet rest k

/-- Compute `sum(counter.values())`. -/
def sumCounts (c : List (String × Nat)) : Nat :=
  (c.map Prod.snd).sum

/-- A message attachment: only its `content_type` matters to the collector. -/
structure Attachment where
  content_type : Option String
deriving Repr, DecidableEq

instance {ε α : Type} [DecidableEq ε] [DecidableEq α] : DecidableEq (Except ε α) :=
  fun a b =>
    match a, b with
    | Except.error e, Except.error f =>
        if h : e = f then isTrue (by rw [h]) else isFalse (by intro hc; cases hc; exact h rfl)
    | Except.error _, Except.ok _ => isFalse (by intro hc; cases hc)
    | Except.ok _, Except.error _ => isFalse (by intro hc; cases hc)
    | Except.ok x, Except.ok y =>
        if h : x = y then isTrue (by rw [h]) else isFalse (by intro hc; cases hc; exact h rfl)

/-- The slice of a `discord.Message` that `_process_message` reads.
`author_bot = none` models an author object without a `bot` attribute;
`author_display_name = none` models a missing `display_name` attribute
(the code falls back to `f"User {message.author.id}"`).  `attachments`
is the result of evaluating `message.attachments` and classifying them:
`Except.error` models an exception raised during that work, which
`_process_attachments` catches. -/
structure Message where
  author_id : Nat
  author_bot : Option Bool
  author_display_name : Option String
  channel_id : Nat
  attachments : Except Unit (List Attachment)
deriving Repr, DecidableEq

/-- The accumulator `MessageStatisticsData.__init__` builds: its fields, with the
source's names.  (`bot_id` is set by callers outside the collector and read
by no statistic, so it is omitted.) -/
structure MessageStatisticsData where
  total_messages : Nat := 0
  messages_per_author : List (String × Nat) := []
  messages_per_author_id : List (String × String) := []
  messages_per_channel : List (String × Nat) := []
  messages_per_channel_id : List (String × Nat) := []
  messages_per_thread : List (String × Nat) := []
  messages_per_thread_id : List (String × Nat) := []
  total_thread_messages : Nat := 0
  pictures_per_author : List (String × Nat) := []
  total_pictures : Nat := 0
  days_in_period : Int := 0
deriving Repr, DecidableEq

/-- A fresh accumulator, as `MessageStatisticsData()` builds it. -/
def initData : MessageStatisticsData := {}

/-- The filter of `_process_attachments`: `a.content_type and
a.content_type.startswith("image/")` (a `None` or empty content type is
falsy).  Python's `str.startswith` is embedded as a prefix test on the
character sequence. -/
def isImageAttachment (a : Attachment) : Bool :=
  match a.content_type with
  | none => false
  | some ct => ct ≠ "" && "image/".data.isPrefixOf ct.data

/-- Embeds `MessageStatisticsCollector._process_attachments`: count the image
attachments and add them to `total_pictures` and `pictures_per_author`;
any exception while doing so is caught (`Except.error`), leaving the
statistics untouched. -/
def process_attachments (message : Message) (author_name : String)
    (stats : MessageStatisticsData) : MessageStatisticsData :=
  match message.attachments with
  | Except.error _ => stats
  | Except.ok atts =>
      let image_attachments := atts.filter isImageAttachment
      if image_attachments.isEmpty then stats
      else
        let count := image_attachments.length
        { stats with
            total_pictures := stats.total_pictures + count
            pictures_per_author :=
              counterAdd stats.pictures_per_author author_name count }

/-- Embeds `MessageStatisticsCollector._process_message`: skip the message when the
author has no `bot` attribute or is a bot; otherwise update every counter.
`channel_name` is the `f"#{channel.name}"` string the caller passes. -/
def process_message (message : Message) (stats : MessageStatisticsData)
    (channel_name : String) (is_thread : Bool) : MessageStatisticsData :=
  match message.author_bot with
  | none => stats
  | some true => stats
  | some false =>
      let author_name :=
        message.author_display_name.getD ("User " ++ toString message.author_id)
      let author_id := toString message.author_id
      let s1 := { stats with
        total_messages := stats.total_messages + 1
        messages_per_author := counterAdd stats.messages_per_author author_name 1
        messages_per_author_id :=
          dictSet stats.messages_per_author_id author_name author_id
        messages_per_channel := counterAdd stats.messages_per_channel channel_name 1
        messages_per_channel_id :=
          dictSet stats.messages_per_channel_id channel_name message.channel_id }
      let s2 :=
        if is_thread then
          { s1 with
            messages_per_thread := counterAdd s1.messages_per_thread channel_name 1
            messages_per_thread_id :=
              dictSet s1.messages_per_thread_id channel_name message.channel_id
            total_thread_messages := s1.total_thread_messages + 1 }
        else s1
      process_attachments message author_name s2

/-- One call of `_process_message` as the walker issues it: the message plus
the `channel_name` and `is_thread` arguments of that call. -/
structure RecordedCall where
  msg : Message
  channel_name : String
  is_thread : Bool
deriving Repr, DecidableEq

/-- A sequence of `_process_message` calls against one accumulator. -/
def record_all (calls : List RecordedCall) (stats : MessageStatisticsData) :
    MessageStatisticsData :=
  calls.foldl (fun s c => process_message c.msg s c.channel_name c.is_thread) stats

/-- Insert one entry into a list already sorted by count descending, after
every entry with a strictly larger count and before every other one; this is
the insertion step of a stable descending sort. -/
def insertDesc (x : String × Nat) : List (String × Nat) → List (String × Nat)
  | [] => [x]
  | y :: ys => if x.2 < y.2 then y :: insertDesc x ys else x :: y :: ys

/-- Stable sort by count descending: ties keep the insertion order of the
association list, exactly as CPython sorts `Counter` items (`sorted` with
`reverse=True` is stable, and dictionaries iterate in insertion order). -/
def sortDesc : List (String × Nat) → List (String × Nat)
  | [] => []
  | x :: xs => insertDesc x (sortDesc xs)

/-- Embeds `Counter.most_common(limit)`: the `limit` largest counts, ties in
first-encountered order. -/
def most_common (c : List (String × Nat)) (limit : Nat) : List (String × Nat) :=
  (sortDesc c).take limit

/-- Embeds `MessageStatisticsData.get_top_posters`: `[]` when `total_messages` is
falsy, else `(author, count, (count / total_messages) * 100)` over
`most_common(limit)`.  Percentages are computed in exact rational
arithmetic. -/
def get_top_posters (s : MessageStatisticsData) (limit : Nat) :
    List (String × Nat × ℚ) :=
  if s.total_messages = 0 then []
  else
    (most_common s.messages_per_author limit).map
      (fun p => (p.1, p.2, ((p.2 : ℚ) / (s.total_messages : ℚ)) * 100))

/-- Embeds `MessageStatisticsData.get_top_channels`. -/
def get_top_channels (s : MessageStatisticsData) (limit : Nat) :
    List (String × Nat × ℚ) :=
  if s.total_messages = 0 then []
  else
    (most_common s.messages_per_channel limit).map
      (fun p => (p.1, p.2, ((p.2 : ℚ) / (s.total_messages : ℚ)) * 100))

/-- Embeds `MessageStatisticsData.get_top_picture_posters` (denominator
`total_pictures`). -/
def get_top_picture_posters (s : MessageStatisticsData) (limit : Nat) :
    List (String × Nat × ℚ) :=
  if s.total_pictures = 0 then []
  else
    (most_common s.pictures_per_author limit).map
      (fun p => (p.1, p.2, ((p.2 : ℚ) / (s.total_pictures : ℚ)) * 100))

/-- Embeds `MessageStatisticsData.get_top_threads` (denominator
`total_thread_messages`). -/
def get_top_threads (s : MessageStatisticsData) (limit : Nat) :
    List (String × Nat × ℚ) :=
  if s.total_thread_messages = 0 then []
  else
    (most_common s.messages_per_thread limit).map
      (fun p => (p.1, p.2, ((p.2 : ℚ) / (s.total_thread_messages : ℚ)) * 100))

/-- Embeds `MessageStatisticsData.avg_messages_per_day`
(`total_messages / days_in_period` when the latter is positive, else 0.0),
in exact rational arithmetic. -/
def avg_messages_per_day (s : MessageStatisticsData) : ℚ :=
  if 0 < s.days_in_period then (s.total_messages : ℚ) / (s.days_in_period : ℚ)
  else 0

/-- The result of one `channel.history(limit=None, after=start, before=end)`
stream: the messages the Chat Service Client yielded, then `some ()` when the
stream ended by raising (network failure, transient API error) instead of
finishing.  `_process_channel` catches that exception after having processed
the yielded prefix. -/
structure HistoryResult where
  msgs : List Message
  error : Option Unit
deriving Repr, DecidableEq

/-- A thread of a channel, as the walker reads it: its name, whether
`permissions_for(guild.me).read_message_history` holds, and its history. -/
structure ThreadData where
  name : String
  read_message_history : Bool
  history : HistoryResult
deriving Repr, DecidableEq

/-- A guild channel: `is_text_channel` is the `isinstance(c, TextChannel)`
test of `_get_text_channels`; `threads = Except.error ()` models
`channel.threads` raising `AttributeError`/`Forbidden`, which
`_process_channel_with_threads` catches. -/
structure ChannelData where
  name : String
  is_text_channel : Bool
  read_message_history : Bool
  history : HistoryResult
  threads : Except Unit (List ThreadData)
deriving Repr, DecidableEq

/-- Embeds `MessageStatisticsCollector._process_channel`: stream the history of a
channel or thread and feed each yielded message to `_process_message` with
`channel_name = f"#{name}"`.  The surrounding `try`/`except` catches a
mid-stream error, so the messages yielded before it stay recorded and the
error never escapes (the `error` field of the history is swallowed). -/
def process_channel (name : String) (history : HistoryResult) (is_thread : Bool)
    (stats : MessageStatisticsData) : MessageStatisticsData :=
  let channel_name := "#" ++ name
  history.msgs.foldl (fun s m => process_message m s channel_name is_thread) stats

/-- Embeds `MessageStatisticsCollector._process_channel_with_threads`: skip the
whole channel when `read_message_history` is missing; otherwise process the
main channel, then each thread that grants `read_message_history`; a failure
to enumerate the threads is caught and leaves the main channel's counts in
place. -/
def process_channel_with_threads (channel : ChannelData)
    (stats : MessageStatisticsData) : MessageStatisticsData :=
  if !channel.read_message_history then stats
  else
    let s1 := process_channel channel.name channel.history false stats
    match channel.threads with
    | Except.error _ => s1
    | Except.ok threads =>
        threads.foldl
          (fun s t =>
            if t.read_message_history then process_channel t.name t.history true s
            else s)
          s1

/-- Embeds `(end_date - start_date).days or 1` with timestamps in seconds:
`timedelta.days` is floor division by 86400, and `or 1` replaces a falsy 0
by 1. -/
def days_between (start_date end_date : Int) : Int :=
  let d := (end_date - start_date).fdiv 86400
  if d = 0 then 1 else d

/-- Embeds `MessageStatisticsCollector.collect`: fresh accumulator, `days_in_period`
from the window, then every text channel of the guild processed (with its
threads) exactly once, in order. -/
def collect (guild_channels : List ChannelData) (start_date end_date : Int) :
    MessageStatisticsData :=
  let stats := { initData with days_in_period := days_between start_date end_date }
  let channels := guild_channels.filter (fun c => c.is_text_channel)
  channels.foldl (fun s c => process_channel_with_threads c s) stats

/-- The author key `_process_message` files a message under:
`getattr(message.author, "display_name", f"User {message.author.id}")`. -/
def authorName (m : Message) : String :=
  m.author_display_name.getD ("User " ++ toString m.author_id)

/-- The number of image attachments a message contributes: 0 when the
attachment work raises (the caught branch of `_process_attachments`). -/
def imageCount (m : Message) : Nat :=
  match m.attachments with
  | Except.error _ => 0
  | Except.ok atts => (atts.filter isImageAttachment).length

/-- Example: a human author named Alice with id 1 and no attachments. -/
def msgAlice1 : Message :=
  { author_id := 1, author_bot := some false, author_display_name := some "Alice",
    channel_id := 10, attachments := Except.ok [] }

/-- Example: a DIFFERENT author (id 2) who carries the same display name. -/
def msgAlice2 : Message :=
  { author_id := 2, author_bot := some false, author_display_name := some "Alice",
    channel_id := 10, attachments := Except.ok [] }

/-- Example: an author named Bob with id 3 and no attachments. -/
def msgBob : Message :=
  { author_id := 3, author_bot := some false, author_display_name := some "Bob",
    channel_id := 10, attachments := Except.ok [] }

/-- Example: a bot-authored message. -/
def msgBot : Message :=
  { author_id := 4, author_bot := some true, author_display_name := some "Robo",
    channel_id := 10, attachments := Except.ok [{ content_type := some "image/png" }] }

/-- Example: Alice posting two image attachments in one message. -/
def msgTwoImages : Message :=
  { author_id := 1, author_bot := some false, author_display_name := some "Alice",
    channel_id := 10,
    attachments := Except.ok
      [{ content_type := some "image/png" }, { content_type := some "image/jpeg" }] }

/-- Example: a message whose attachment work raises. -/
def msgAttachmentError : Message :=
  { author_id := 1, author_bot := some false, author_display_name := some "Alice",
    channel_id := 10, attachments := Except.error () }

/-- Example: the walker call recording the two-image message in #general. -/
def callTwoImages : RecordedCall :=
  { msg := msgTwoImages, channel_name := "#general", is_thread := false }

/-- Incrementing a key raises exactly that key's count. -/
theorem counterGet_counterAdd_same (c : List (String × Nat)) (k : String) (n : Nat) :
    counterGet (counterAdd c k n) k = counterGet c k + n := by
  induction c with
  | nil => simp [counterAdd, counterGet]
  | cons p rest ih =>
      obtain ⟨a, cnt⟩ := p
      by_cases h : a = k
      · simp [counterAdd, counterGet, h]
      · simp [counterAdd, counterGet, h, ih]

/-- Incrementing a key leaves every other key's count alone. -/
theorem counterGet_counterAdd_ne (c : List (String × Nat)) (k k' : String) (n : Nat)
    (h : k' ≠ k) : counterGet (counterAdd c k n) k' = counterGet c k' := by
  induction c with
  | nil => simp [counterAdd, counterGet, Ne.symm h]
  | cons p rest ih =>
      obtain ⟨a, cnt⟩ := p
      by_cases ha : a = k
      · subst ha
        simp [counterAdd, counterGet, Ne.symm h, h]
      · by_cases ha' : a = k'
        · simp [counterAdd, counterGet, ha, ha', h, Ne.symm h]
        · simp [counterAdd, counterGet, ha, ha', ih]

/-- Setting a key makes that key read back the new value. -/
theorem dictGet_dictSet_same {α : Type} (d : List (String × α)) (k : String) (v : α) :
    dictGet (dictSet d k v) k = some v := by
  induction d with
  | nil => simp [dictSet, dictGet]
  | cons p rest ih =>
      obtain ⟨a, w⟩ := p
      by_cases h : a = k
      · simp [dictSet, dictGet, h]
      · simp [dictSet, dictGet, h, ih]

/-- Setting a key leaves every other key's value alone. -/
theorem dictGet_dictSet_ne {α : Type} (d : List (String × α)) (k k' : String) (v : α)
    (h : k' ≠ k) : dictGet (dictSet d k v) k' = dictGet d k' := by
  induction d with
  | nil => simp [dictSet, dictGet, Ne.symm h]
  | cons p rest ih =>
      obtain ⟨a, w⟩ := p
      by_cases ha : a = k
      · subst ha
        simp [dictSet, dictGet, Ne.symm h, h]
      · by_cases ha' : a = k'
        · simp [dictSet, dictGet, ha, ha', h, Ne.symm h]
        · simp [dictSet, dictGet, ha, ha', ih]

/-- Incrementing one key by `n` raises the total of all counts by `n`. -/
theorem sumCounts_counterAdd (c : List (String × Nat)) (k : String) (n : Nat) :
    sumCounts (counterAdd c k n) = sumCounts c + n := by
  induction c with
  | nil => simp [counterAdd, sumCounts]
  | cons p rest ih =>
      obtain ⟨a, cnt⟩ := p
      by_cases h : a = k
      · simp [counterAdd, sumCounts, h]
        omega
      · simp only [counterAdd, sumCounts, if_neg h, List.map_cons, List.sum_cons]
        simp only [sumCounts] at ih
        omega

/-- Closed form of `_process_attachments`: it adds the message's image count
to the two picture counters and touches nothing else. -/
theorem process_attachments_eq (m : Message) (author_name : String)
    (s : MessageStatisticsData) :
    process_attachments m author_name s =
      if imageCount m = 0 then s
      else { s with
              total_pictures := s.total_pictures + imageCount m
              pictures_per_author :=
                counterAdd s.pictures_per_author author_name (imageCount m) } := by
  unfold process_attachments imageCount
  cases hm : m.attachments with
  | error e => simp
  | ok atts =>
      dsimp only
      by_cases hempty : (atts.filter isImageAttachment) = []
      · simp [hempty]
      · have hlen : (atts.filter isImageAttachment).length ≠ 0 := by
          simpa [List.length_eq_zero] using hempty
        simp [hempty, hlen, List.isEmpty_iff]

/-- A message without a `bot` attribute or from a bot changes nothing. -/
theorem process_message_skip (m : Message) (s : MessageStatisticsData)
    (channel_name : String) (is_thread : Bool) (h : m.author_bot ≠ some false) :
    process_message m s channel_name is_thread = s := by
  unfold process_message
  cases hb : m.author_bot with
  | none => rfl
  | some b =>
      cases b with
      | false => exact absurd hb h
      | true => rfl

/-- Every field of the accumulator after `_process_message` on a non-bot
message, in terms of the state before. -/
theorem process_message_fields (m : Message) (s : MessageStatisticsData)
    (ch : String) (th : Bool) (h : m.author_bot = some false) :
    (process_message m s ch th).total_messages = s.total_messages + 1 ∧
    (process_message m s ch th).messages_per_author =
      counterAdd s.messages_per_author (authorName m) 1 ∧
    (process_message m s ch th).messages_per_author_id =
      dictSet s.messages_per_author_id (authorName m) (toString m.author_id) ∧
    (process_message m s ch th).messages_per_channel =
      counterAdd s.messages_per_channel ch 1 ∧
    (process_message m s ch th).messages_per_channel_id =
      dictSet s.messages_per_channel_id ch m.channel_id ∧
    (process_message m s ch th).messages_per_thread =
      (if th then counterAdd s.messages_per_thread ch 1 else s.messages_per_thread) ∧
    (process_message m s ch th).messages_per_thread_id =
      (if th then dictSet s.messages_per_thread_id ch m.channel_id
       else s.messages_per_thread_id) ∧
    (process_message m s ch th).total_thread_messages =
      (if th then s.total_thread_messages + 1 else s.total_thread_messages) ∧
    (process_message m s ch th).pictures_per_author =
      (if imageCount m = 0 then s.pictures_per_author
       else counterAdd s.pictures_per_author (authorName m) (imageCount m)) ∧
    (process_message m s ch th).total_pictures = s.total_pictures + imageCount m ∧
    (process_message m s ch th).days_in_period = s.days_in_period := by
  unfold process_message
  rw [h]
  dsimp only
  rw [process_attachments_eq]
  by_cases him : imageCount m = 0 <;> cases th <;>
    simp [him, authorName]

/-- Unfolding one step of `record_all`. -/
theorem record_all_cons (c : RecordedCall) (cs : List RecordedCall)
    (s : MessageStatisticsData) :
    record_all (c :: cs) s =
      record_all cs (process_message c.msg s c.channel_name c.is_thread) := rfl

/-- A state property preserved by each step of a fold is preserved by the
whole fold. -/
theorem foldl_invariant {α β : Type} (P : β → Prop) (f : β → α → β)
    (hstep : ∀ s a, P s → P (f s a)) :
    ∀ (l : List α) (s : β), P s → P (l.foldl f s) := by
  intro l
  induction l with
  | nil => intro s hs; exact hs
  | cons x xs ih => intro s hs; exact ih (f s x) (hstep s x hs)

/-- One `_process_message` call preserves
`total_messages = sum(messages_per_channel.values())`. -/
theorem step_total_eq_sum_channels (s : MessageStatisticsData) (c : RecordedCall)
    (h : s.total_messages = sumCounts s.messages_per_channel) :
    (process_message c.msg s c.channel_name c.is_thread).total_messages =
      sumCounts (process_message c.msg s c.channel_name c.is_thread).messages_per_channel := by
  by_cases hb : c.msg.author_bot = some false
  · obtain ⟨h1, -, -, h4, -⟩ :=
      process_message_fields c.msg s c.channel_name c.is_thread hb
    rw [h1, h4, sumCounts_counterAdd, h]
  · rw [process_message_skip _ _ _ _ hb]; exact h

/-- One `_process_message` call preserves
`total_messages = sum(messages_per_author.values())`. -/
theorem step_total_eq_sum_authors (s : MessageStatisticsData) (c : RecordedCall)
    (h : s.total_messages = sumCounts s.messages_per_author) :
    (process_message c.msg s c.channel_name c.is_thread).total_messages =
      sumCounts (process_message c.msg s c.channel_name c.is_thread).messages_per_author := by
  by_cases hb : c.msg.author_bot = some false
  · obtain ⟨h1, h2, -⟩ :=
      process_message_fields c.msg s c.channel_name c.is_thread hb
    rw [h1, h2, sumCounts_counterAdd, h]
  · rw [process_message_skip _ _ _ _ hb]; exact h

/-- One `_process_message` call preserves
`total_thread_messages = sum(messages_per_thread.values())`. -/
theorem step_threads_eq_sum (s : MessageStatisticsData) (c : RecordedCall)
    (h : s.total_thread_messages = sumCounts s.messages_per_thread) :
    (process_message c.msg s c.channel_name c.is_thread).total_thread_messages =
      sumCounts (process_message c.msg s c.channel_name c.is_thread).messages_per_thread := by
  by_cases hb : c.msg.author_bot = some false
  · obtain ⟨-, -, -, -, -, h6, -, h8, -⟩ :=
      process_message_fields c.msg s c.channel_name c.is_thread hb
    rw [h6, h8]
    cases c.is_thread
    · simpa using h
    · simp [sumCounts_counterAdd, h]
  · rw [process_message_skip _ _ _ _ hb]; exact h

/-- One `_process_message` call preserves
`total_pictures = sum(pictures_per_author.values())`. -/
theorem step_pictures_eq_sum (s : MessageStatisticsData) (c : RecordedCall)
    (h : s.total_pictures = sumCounts s.pictures_per_author) :
    (process_message c.msg s c.channel_name c.is_thread).total_pictures =
      sumCounts (process_message c.msg s c.channel_name c.is_thread).pictures_per_author := by
  by_cases hb : c.msg.author_bot = some false
  · obtain ⟨-, -, -, -, -, -, -, -, h9, h10, -⟩ :=
      process_message_fields c.msg s c.channel_name c.is_thread hb
    rw [h9, h10]
    by_cases him : imageCount c.msg = 0
    · simp [him, h]
    · simp [him, sumCounts_counterAdd, h]
  · rw [process_message_skip _ _ _ _ hb]; exact h

/-- The channel-sum invariant over a whole recording sequence. -/
theorem record_all_total_eq_sum_channels (calls : List RecordedCall)
    (s : MessageStatisticsData)
    (h : s.total_messages = sumCounts s.messages_per_channel) :
    (record_all calls s).total_messages =
      sumCounts (record_all calls s).messages_per_channel :=
  foldl_invariant (fun t => t.total_messages = sumCounts t.messages_per_channel)
    _ (fun t c ht => step_total_eq_sum_channels t c ht) calls s h

/-- The author-sum invariant over a whole recording sequence. -/
theorem record_all_total_eq_sum_authors (calls : List RecordedCall)
    (s : MessageStatisticsData)
    (h : s.total_messages = sumCounts s.messages_per_author) :
    (record_all calls s).total_messages =
      sumCounts (record_all calls s).messages_per_author :=
  foldl_invariant (fun t => t.total_messages = sumCounts t.messages_per_author)
    _ (fun t c ht => step_total_eq_sum_authors t c ht) calls s h

/-- The thread-sum invariant over a whole recording sequence. -/
theorem record_all_threads_eq_sum (calls : List RecordedCall)
    (s : MessageStatisticsData)
    (h : s.total_thread_messages = sumCounts s.messages_per_thread) :
    (record_all calls s).total_thread_messages =
      sumCounts (record_all calls s).messages_per_thread :=
  foldl_invariant (fun t => t.total_thread_messages = sumCounts t.messages_per_thread)
    _ (fun t c ht => step_threads_eq_sum t c ht) calls s h

/-- The picture-sum invariant over a whole recording sequence. -/
theorem record_all_pictures_eq_sum (calls : List RecordedCall)
    (s : MessageStatisticsData)
    (h : s.total_pictures = sumCounts s.pictures_per_author) :
    (record_all calls s).total_pictures =
      sumCounts (record_all calls s).pictures_per_author :=
  foldl_invariant (fun t => t.total_pictures = sumCounts t.pictures_per_author)
    _ (fun t c ht => step_pictures_eq_sum t c ht) calls s h

/-- When every message carries at most one image attachment, the picture
total stays below the message total. -/
theorem record_all_pictures_le_messages :
    ∀ (calls : List RecordedCall), (∀ c ∈ calls, imageCount c.msg ≤ 1) →
    ∀ (s : MessageStatisticsData), s.total_pictures ≤ s.total_messages →
      (record_all calls s).total_pictures ≤ (record_all calls s).total_messages := by
  intro calls
  induction calls with
  | nil => intro _ s hs; exact hs
  | cons c cs ih =>
      intro h s hs
      rw [record_all_cons]
      apply ih (fun x hx => h x (List.mem_cons_of_mem c hx))
      by_cases hb : c.msg.author_bot = some false
      · obtain ⟨h1, -, -, -, -, -, -, -, -, h10, -⟩ :=
          process_message_fields c.msg s c.channel_name c.is_thread hb
        have hc : imageCount c.msg ≤ 1 := h c (List.mem_cons_self c cs)
        omega
      · rw [process_message_skip _ _ _ _ hb]; exact hs

/-- Inserting an entry only adds that entry to the list. -/
theorem insertDesc_perm (x : String × Nat) (l : List (String × Nat)) :
    (insertDesc x l).Perm (x :: l) := by
  induction l with
  | nil => exact List.Perm.refl _
  | cons y ys ih =>
      unfold insertDesc
      by_cases h : x.2 < y.2
      · rw [if_pos h]
        exact (ih.cons y).trans (List.Perm.swap x y ys)
      · rw [if_neg h]

/-- Sorting permutes the counter's entries. -/
theorem sortDesc_perm (l : List (String × Nat)) : (sortDesc l).Perm l := by
  induction l with
  | nil => exact List.Perm.refl _
  | cons x xs ih =>
      unfold sortDesc
      exact (insertDesc_perm x (sortDesc xs)).trans (ih.cons x)

/-- Sorting keeps the number of entries. -/
theorem sortDesc_length (l : List (String × Nat)) :
    (sortDesc l).length = l.length :=
  (sortDesc_perm l).length_eq

/-- Inserting into a list sorted by count descending keeps it sorted. -/
theorem insertDesc_sorted (x : String × Nat) (l : List (String × Nat))
    (h : List.Pairwise (fun a b => b.2 ≤ a.2) l) :
    List.Pairwise (fun a b => b.2 ≤ a.2) (insertDesc x l) := by
  induction l with
  | nil => simp [insertDesc]
  | cons y ys ih =>
      rw [List.pairwise_cons] at h
      obtain ⟨hy, hys⟩ := h
      unfold insertDesc
      by_cases hlt : x.2 < y.2
      · rw [if_pos hlt, List.pairwise_cons]
        refine ⟨fun z hz => ?_, ih hys⟩
        cases List.mem_cons.1 ((insertDesc_perm x ys).mem_iff.1 hz) with
        | inl hzx => rw [hzx]; exact le_of_lt hlt
        | inr hzys => exact hy z hzys
      · rw [if_neg hlt, List.pairwise_cons]
        refine ⟨fun z hz => ?_, List.pairwise_cons.2 ⟨hy, hys⟩⟩
        cases List.mem_cons.1 hz with
        | inl hzy => rw [hzy]; exact not_lt.1 hlt
        | inr hzys => exact le_trans (hy z hzys) (not_lt.1 hlt)

/-- The sorted counter is sorted by count descending. -/
theorem sortDesc_sorted (l : List (String × Nat)) :
    List.Pairwise (fun a b => b.2 ≤ a.2) (sortDesc l) := by
  induction l with
  | nil => simp [sortDesc]
  | cons x xs ih => exact insertDesc_sorted x (sortDesc xs) ih

/-- Inserting an entry puts it in front of every other entry with the same
count (the skipped entries all have strictly larger counts). -/
theorem insertDesc_filter (x : String × Nat) (l : List (String × Nat)) (k : Nat) :
    (insertDesc x l).filter (fun p => p.2 == k) =
      if x.2 = k then x :: l.filter (fun p => p.2 == k)
      else l.filter (fun p => p.2 == k) := by
  induction l with
  | nil =>
      by_cases hx : x.2 = k <;> simp [insertDesc, List.filter_cons, hx]
  | cons y ys ih =>
      unfold insertDesc
      by_cases hlt : x.2 < y.2
      · rw [if_pos hlt]
        by_cases hx : x.2 = k
        · have hy : ¬(y.2 = k) := by omega
          simp [List.filter_cons, hx, hy, ih]
        · simp [List.filter_cons, hx, ih]
      · rw [if_neg hlt]
        by_cases hx : x.2 = k <;> simp [List.filter_cons, hx]

/-- Stability of the sort: for every count value, the entries carrying that
count appear in the sorted list exactly in their insertion order. -/
theorem sortDesc_filter (l : List (String × Nat)) (k : Nat) :
    (sortDesc l).filter (fun p => p.2 == k) = l.filter (fun p => p.2 == k) := by
  induction l with
  | nil => rfl
  | cons x xs ih =>
      unfold sortDesc
      rw [insertDesc_filter]
      by_cases hx : x.2 = k
      · simp [List.filter_cons, hx, ih]
      · simp [List.filter_cons, hx, ih]

/-- Summing a counter entrywise. -/
theorem sumCounts_cons (p : String × Nat) (rest : List (String × Nat)) :
    sumCounts (p :: rest) = p.2 + sumCounts rest := by
  simp [sumCounts]

/-- The percentages of a list of entries add up to the percentage of their
summed counts. -/
theorem sum_map_percent (l : List (String × Nat)) (T : ℚ) :
    (l.map (fun p => ((p.2 : ℚ) / T) * 100)).sum = ((sumCounts l : ℚ) / T) * 100 := by
  induction l with
  | nil => simp [sumCounts]
  | cons p rest ih =>
      rw [List.map_cons, List.sum_cons, ih, sumCounts_cons]
      push_cast
      ring

/-- A full `most_common` pass (limit = number of keys) has percentages
summing to exactly 100 whenever the denominator is the counter's own sum. -/
theorem percent_sum_full (c : List (String × Nat)) (T : Nat)
    (hT : T ≠ 0) (hsum : sumCounts c = T) :
    ((most_common c c.length).map (fun p => ((p.2 : ℚ) / (T : ℚ)) * 100)).sum = 100 := by
  unfold most_common
  rw [List.take_of_length_le (le_of_eq (sortDesc_length c))]
  have hperm := (sortDesc_perm c).map (fun p => ((p.2 : ℚ) / (T : ℚ)) * 100)
  rw [hperm.sum_eq, sum_map_percent, hsum,
    div_self (by exact_mod_cast hT), one_mul]

/-- No `_process_message` call touches `days_in_period`. -/
theorem process_message_days (m : Message) (s : MessageStatisticsData)
    (ch : String) (th : Bool) :
    (process_message m s ch th).days_in_period = s.days_in_period := by
  by_cases hb : m.author_bot = some false
  · exact (process_message_fields m s ch th hb).2.2.2.2.2.2.2.2.2.2
  · rw [process_message_skip _ _ _ _ hb]

/-- Streaming a history never touches `days_in_period`. -/
theorem process_channel_days (name : String) (history : HistoryResult)
    (th : Bool) (s : MessageStatisticsData) :
    (process_channel name history th s).days_in_period = s.days_in_period := by
  unfold process_channel
  exact foldl_invariant (fun t => t.days_in_period = s.days_in_period)
    (fun s2 m => process_message m s2 ("#" ++ name) th)
    (fun t m ht => by dsimp only; rw [process_message_days]; exact ht)
    history.msgs s rfl

/-- Processing a channel with its threads never touches `days_in_period`. -/
theorem process_channel_with_threads_days (c : ChannelData)
    (s : MessageStatisticsData) :
    (process_channel_with_threads c s).days_in_period = s.days_in_period := by
  unfold process_channel_with_threads
  by_cases hr : c.read_message_history
  · simp only [hr, Bool.not_true, Bool.false_eq_true, if_false]
    cases hth : c.threads with
    | error e => exact process_channel_days _ _ _ _
    | ok threads =>
        refine foldl_invariant
          (fun t => t.days_in_period = s.days_in_period)
          (fun s2 t =>
            if t.read_message_history then process_channel t.name t.history true s2
            else s2)
          (fun t td ht => ?_) threads _ (process_channel_days _ _ _ _)
        by_cases hp : td.read_message_history
        · simp only [hp, if_true]
          rw [process_channel_days]; exact ht
        · simp only [hp, if_false]; exact ht
  · simp [hr]

/-- `collect` fixes `days_in_period` from the window up front and nothing in
the walk changes it. -/
theorem collect_days (guild_channels : List ChannelData) (sd ed : Int) :
    (collect guild_channels sd ed).days_in_period = days_between sd ed := by
  unfold collect
  exact foldl_invariant (fun t => t.days_in_period = days_between sd ed)
    (fun s c => process_channel_with_threads c s)
    (fun t c ht => by dsimp only; rw [process_channel_with_threads_days]; exact ht)
    (guild_channels.filter (fun c => c.is_text_channel))
    { initData with days_in_period := days_between sd ed } rfl

/-- A window with a nonnegative span yields at least one day. -/
theorem days_between_pos (sd ed : Int) (h : sd ≤ ed) : 1 ≤ days_between sd ed := by
  unfold days_between
  have hnn : 0 ≤ (ed - sd).fdiv 86400 := Int.fdiv_nonneg (by omega) (by norm_num)
  by_cases h0 : (ed - sd).fdiv 86400 = 0
  · simp [h0]
  · simp only [h0, if_false]
    omega

/-- An empty window counts as exactly one day. -/
theorem days_between_self (t : Int) : days_between t t = 1 := by
  unfold days_between
  simp

/-- Splitting `collect` over a channel-list append. -/
theorem collect_append (pre post : List ChannelData) (sd ed : Int) :
    collect (pre ++ post) sd ed =
      (post.filter (fun c => c.is_text_channel)).foldl
        (fun s c => process_channel_with_threads c s) (collect pre sd ed) := by
  unfold collect
  rw [List.filter_append, List.foldl_append]

/-- A channel without the read-history permission is left entirely alone. -/
theorem pcwt_no_history_permission (c : ChannelData) (s : MessageStatisticsData)
    (h : c.read_message_history = false) :
    process_channel_with_threads c s = s := by
  unfold process_channel_with_threads
  simp [h]

/-- Two channels that agree except for unconsumed error payloads are walked
to the same statistics. -/
theorem collect_middle_congr (pre post : List ChannelData) (sd ed : Int)
    (c1 c2 : ChannelData) (htext : c1.is_text_channel = c2.is_text_channel)
    (hp : ∀ s, process_channel_with_threads c1 s = process_channel_with_threads c2 s) :
    collect (pre ++ c1 :: post) sd ed = collect (pre ++ c2 :: post) sd ed := by
  rw [collect_append, collect_append, List.filter_cons, List.filter_cons, ← htext]
  by_cases ht : c1.is_text_channel
  · simp only [ht, if_true, List.foldl_cons, hp]
  · simp [ht]

/-- C1: A `_process_message` call on a non-bot message increments
`total_messages` by 1, the author's entry of `messages_per_author` by 1 and
the channel's entry of `messages_per_channel` by 1, records/overwrites the
author's display-name association (the display name maps to the author's id)
and the channel association, additionally increments the thread's entry of
`messages_per_thread` and `total_thread_messages` by 1 when `is_thread`, and
adds the message's image-attachment count `k > 0` to the author's entry of
`pictures_per_author` and to `total_pictures`; no other counter changes. -/
theorem process_message_effects (m : Message) (s : MessageStatisticsData)
    (ch : String) (th : Bool) (h : m.author_bot = some false) :
    (process_message m s ch th).total_messages = s.total_messages + 1 ∧
    counterGet (process_message m s ch th).messages_per_author (authorName m) =
      counterGet s.messages_per_author (authorName m) + 1 ∧
    (∀ k, k ≠ authorName m →
      counterGet (process_message m s ch th).messages_per_author k =
        counterGet s.messages_per_author k) ∧
    dictGet (process_message m s ch th).messages_per_author_id (authorName m) =
      some (toString m.author_id) ∧
    (∀ k, k ≠ authorName m →
      dictGet (process_message m s ch th).messages_per_author_id k =
        dictGet s.messages_per_author_id k) ∧
    counterGet (process_message m s ch th).messages_per_channel ch =
      counterGet s.messages_per_channel ch + 1 ∧
    (∀ k, k ≠ ch →
      counterGet (process_message m s ch th).messages_per_channel k =
        counterGet s.messages_per_channel k) ∧
    dictGet (process_message m s ch th).messages_per_channel_id ch =
      some m.channel_id ∧
    (th = true →
      counterGet (process_message m s ch th).messages_per_thread ch =
        counterGet s.messages_per_thread ch + 1 ∧
      (process_message m s ch th).total_thread_messages =
        s.total_thread_messages + 1 ∧
      (∀ k, k ≠ ch →
        counterGet (process_message m s ch th).messages_per_thread k =
          counterGet s.messages_per_thread k)) ∧
    (th = false →
      (process_message m s ch th).messages_per_thread = s.messages_per_thread ∧
      (process_message m s ch th).total_thread_messages =
        s.total_thread_messages) ∧
    (process_message m s ch th).total_pictures = s.total_pictures + imageCount m ∧
    (imageCount m = 0 →
      (process_message m s ch th).pictures_per_author = s.pictures_per_author) ∧
    (imageCount m ≠ 0 →
      counterGet (process_message m s ch th).pictures_per_author (authorName m) =
        counterGet s.pictures_per_author (authorName m) + imageCount m ∧
      (∀ k, k ≠ authorName m →
        counterGet (process_message m s ch th).pictures_per_author k =
          counterGet s.pictures_per_author k)) ∧
    (process_message m s ch th).days_in_period = s.days_in_period := by
  obtain ⟨h1, h2, h3, h4, h5, h6, h7, h8, h9, h10, h11⟩ :=
    process_message_fields m s ch th h
  refine ⟨h1, ?_, ?_, ?_, ?_, ?_, ?_, ?_, ?_, ?_, h10, ?_, ?_, h11⟩
  · rw [h2, counterGet_counterAdd_same]
  · intro k hk; rw [h2, counterGet_counterAdd_ne _ _ _ _ hk]
  · rw [h3, dictGet_dictSet_same]
  · intro k hk; rw [h3, dictGet_dictSet_ne _ _ _ _ hk]
  · rw [h4, counterGet_counterAdd_same]
  · intro k hk; rw [h4, counterGet_counterAdd_ne _ _ _ _ hk]
  · rw [h5, dictGet_dictSet_same]
  · intro hth; subst hth
    simp only [if_true] at h6 h8
    refine ⟨by rw [h6, counterGet_counterAdd_same], h8, ?_⟩
    intro k hk; rw [h6, counterGet_counterAdd_ne _ _ _ _ hk]
  · intro hth; subst hth
    simp only [Bool.false_eq_true, if_false] at h6 h8
    exact ⟨h6, h8⟩
  · intro him; rw [h9, if_pos him]
  · intro him; rw [h9, if_neg him]
    refine ⟨counterGet_counterAdd_same _ _ _, ?_⟩
    intro k hk; rw [counterGet_counterAdd_ne _ _ _ _ hk]

/-- Concrete instance of C1: recording Alice's first message. -/
theorem process_message_effects_witness :
    msgAlice1.author_bot = some false ∧
    (process_message msgAlice1 initData "#general" false).total_messages = 1 :=
  ⟨rfl, by
    simpa using (process_message_effects msgAlice1 initData "#general" false rfl).1⟩

/-- C2: over any sequence of recorded messages starting from a fresh
accumulator, `total_messages` equals the sum of the values of
`messages_per_channel` (thread messages land in their own bucket, so nothing
is double-counted into a parent's bucket). -/
theorem total_messages_eq_sum_channels (calls : List RecordedCall) :
    (record_all calls initData).total_messages =
      sumCounts (record_all calls initData).messages_per_channel :=
  record_all_total_eq_sum_channels calls initData rfl

/-- Counterexample to C3's bound: one non-bot message with two image
attachments gives `total_pictures = 2 > 1 = total_messages`. -/
theorem total_pictures_can_exceed_total_messages :
    (record_all [callTwoImages] initData).total_messages = 1 ∧
    (record_all [callTwoImages] initData).total_pictures = 2 ∧
    ¬((record_all [callTwoImages] initData).total_pictures ≤
      (record_all [callTwoImages] initData).total_messages) := by
  refine ⟨rfl, rfl, ?_⟩
  decide

/-- C3 (amended): `total_pictures` always equals the sum of the values of
`pictures_per_author`; the bound `total_pictures ≤ total_messages` holds
under the additional hypothesis that every recorded message carries at most
one image attachment (a single message with several images breaks it). -/
theorem pictures_sum_and_conditional_bound (calls : List RecordedCall) :
    (record_all calls initData).total_pictures =
      sumCounts (record_all calls initData).pictures_per_author ∧
    ((∀ c ∈ calls, imageCount c.msg ≤ 1) →
      (record_all calls initData).total_pictures ≤
        (record_all calls initData).total_messages) :=
  ⟨record_all_pictures_eq_sum calls initData rfl,
   fun h => record_all_pictures_le_messages calls h initData (Nat.le_refl 0)⟩

/-- C4: recording a bot-authored message leaves the whole accumulator
unchanged — every total, every per-key counter and every display-name map. -/
theorem bot_message_noop (m : Message) (s : MessageStatisticsData)
    (ch : String) (th : Bool) (h : m.author_bot = some true) :
    process_message m s ch th = s :=
  process_message_skip m s ch th (by simp [h])

/-- Concrete instance of C4: a bot message against a fresh accumulator. -/
theorem bot_message_noop_witness :
    msgBot.author_bot = some true ∧
    process_message msgBot initData "#general" false = initData :=
  ⟨rfl, bot_message_noop msgBot initData "#general" false rfl⟩

/-- C5: `get_top_posters(n)` returns `[]` when `n = 0` or `total_messages = 0`;
otherwise it returns the author entries sorted by count descending with ties
kept in first-appearance (insertion) order — the sorted list is a permutation
of `messages_per_author`, is pairwise descending, and preserves the original
order within every count class — each paired with the percentage
`100 * count / total_messages`; and when `n` is at least the number of
distinct author keys the whole sorted list is returned. -/
theorem get_top_posters_spec (calls : List RecordedCall) (n : Nat) :
    (n = 0 → get_top_posters (record_all calls initData) n = []) ∧
    ((record_all calls initData).total_messages = 0 →
      get_top_posters (record_all calls initData) n = []) ∧
    (sortDesc (record_all calls initData).messages_per_author).Perm
      (record_all calls initData).messages_per_author ∧
    List.Pairwise (fun a b => b.2 ≤ a.2)
      (sortDesc (record_all calls initData).messages_per_author) ∧
    (∀ k : Nat,
      (sortDesc (record_all calls initData).messages_per_author).filter
          (fun p => p.2 == k) =
        (record_all calls initData).messages_per_author.filter
          (fun p => p.2 == k)) ∧
    ((record_all calls initData).total_messages ≠ 0 →
      get_top_posters (record_all calls initData) n =
        ((sortDesc (record_all calls initData).messages_per_author).take n).map
          (fun p => (p.1, p.2,
            100 * (p.2 : ℚ) /
              ((record_all calls initData).total_messages : ℚ)))) ∧
    ((record_all calls initData).total_messages ≠ 0 →
      (record_all calls initData).messages_per_author.length ≤ n →
      (get_top_posters (record_all calls initData) n).map
          (fun t => (t.1, t.2.1)) =
        sortDesc (record_all calls initData).messages_per_author) := by
  have hmap :
      (fun p : String × Nat => (p.1, p.2,
        ((p.2 : ℚ) / ((record_all calls initData).total_messages : ℚ)) * 100)) =
      (fun p : String × Nat => (p.1, p.2,
        100 * (p.2 : ℚ) / ((record_all calls initData).total_messages : ℚ))) := by
    funext p
    simp only [Prod.mk.injEq, true_and]
    ring
  refine ⟨?_, ?_, sortDesc_perm _, sortDesc_sorted _, fun k => sortDesc_filter _ k,
    ?_, ?_⟩
  · intro hn
    subst hn
    by_cases h0 : (record_all calls initData).total_messages = 0 <;>
      simp [get_top_posters, h0, most_common]
  · intro h0
    simp [get_top_posters, h0]
  · intro h0
    unfold get_top_posters most_common
    rw [if_neg h0, hmap]
  · intro h0 hlen
    simp only [get_top_posters, if_neg h0, most_common, List.map_map]
    rw [List.take_of_length_le (le_of_eq_of_le (sortDesc_length _) hlen)]
    have hid : ((fun t : String × Nat × ℚ => (t.1, t.2.1)) ∘
        (fun p : String × Nat => (p.1, p.2,
          ((p.2 : ℚ) / ((record_all calls initData).total_messages : ℚ)) * 100))) =
        fun p : String × Nat => p := by
      funext p
      rfl
    rw [hid, List.map_id']

/-- C9: with a positive denominator, the percentages of a full ranking pass
(limit = number of distinct keys) sum to exactly 100 — for authors and
channels over `total_messages`, for threads over `total_thread_messages`,
and for picture authors over `total_pictures`, each in exact rational
arithmetic. -/
theorem percent_sums_to_100 (calls : List RecordedCall) :
    ((record_all calls initData).total_messages ≠ 0 →
      ((get_top_posters (record_all calls initData)
          (record_all calls initData).messages_per_author.length).map
        (fun t => t.2.2)).sum = 100) ∧
    ((record_all calls initData).total_messages ≠ 0 →
      ((get_top_channels (record_all calls initData)
          (record_all calls initData).messages_per_channel.length).map
        (fun t => t.2.2)).sum = 100) ∧
    ((record_all calls initData).total_thread_messages ≠ 0 →
      ((get_top_threads (record_all calls initData)
          (record_all calls initData).messages_per_thread.length).map
        (fun t => t.2.2)).sum = 100) ∧
    ((record_all calls initData).total_pictures ≠ 0 →
      ((get_top_picture_posters (record_all calls initData)
          (record_all calls initData).pictures_per_author.length).map
        (fun t => t.2.2)).sum = 100) := by
  refine ⟨?_, ?_, ?_, ?_⟩
  · intro h0
    simp only [get_top_posters, if_neg h0, List.map_map]
    exact percent_sum_full _ _ h0
      (record_all_total_eq_sum_authors calls initData rfl).symm
  · intro h0
    simp only [get_top_channels, if_neg h0, List.map_map]
    exact percent_sum_full _ _ h0
      (record_all_total_eq_sum_channels calls initData rfl).symm
  · intro h0
    simp only [get_top_threads, if_neg h0, List.map_map]
    exact percent_sum_full _ _ h0
      (record_all_threads_eq_sum calls initData rfl).symm
  · intro h0
    simp only [get_top_picture_posters, if_neg h0, List.map_map]
    exact percent_sum_full _ _ h0
      (record_all_pictures_eq_sum calls initData rfl).symm

/-- The error flag of a history stream is swallowed by `_process_channel`;
only the yielded messages matter. -/
theorem pcwt_history_error_swallowed (c : ChannelData) (msgs : List Message)
    (e : Option Unit) (s : MessageStatisticsData) :
    process_channel_with_threads { c with history := { msgs := msgs, error := e } } s =
      process_channel_with_threads { c with history := { msgs := msgs, error := none } } s :=
  rfl

/-- Failing to enumerate a channel's threads is the same as the channel
having no threads. -/
theorem pcwt_threads_error_swallowed (c : ChannelData) (s : MessageStatisticsData) :
    process_channel_with_threads { c with threads := Except.error () } s =
      process_channel_with_threads { c with threads := Except.ok [] } s :=
  rfl

/-- C6: a channel without the read-history permission is skipped entirely —
the run computes exactly what it computes without that channel, so it and
its threads contribute zero messages and no error reaches the caller; a
history stream that dies mid-way (after yielding a prefix) changes nothing
against a clean stream of the same prefix, so every remaining channel is
still attempted and the accumulator is returned; a failure to enumerate a
channel's threads keeps the channel's own messages; and a thread whose
stream dies mid-way likewise only loses its unfetched remainder. -/
theorem collect_error_isolation (pre post : List ChannelData) (c : ChannelData)
    (sd ed : Int) :
    (c.read_message_history = false →
      collect (pre ++ c :: post) sd ed = collect (pre ++ post) sd ed) ∧
    (∀ msgs : List Message,
      collect (pre ++
          { c with history := { msgs := msgs, error := some () } } :: post) sd ed =
        collect (pre ++
          { c with history := { msgs := msgs, error := none } } :: post) sd ed) ∧
    (collect (pre ++ { c with threads := Except.error () } :: post) sd ed =
      collect (pre ++ { c with threads := Except.ok [] } :: post) sd ed) ∧
    (∀ (ts1 ts2 : List ThreadData) (t : ThreadData) (msgs : List Message),
      collect (pre ++ { c with threads := Except.ok (ts1 ++
          { t with history := { msgs := msgs, error := some () } } :: ts2) } :: post)
          sd ed =
        collect (pre ++ { c with threads := Except.ok (ts1 ++
          { t with history := { msgs := msgs, error := none } } :: ts2) } :: post)
          sd ed) := by
  refine ⟨?_, ?_, ?_, ?_⟩
  · intro hperm
    rw [collect_append pre (c :: post), collect_append pre post, List.filter_cons]
    by_cases ht : c.is_text_channel
    · simp only [ht, if_true, List.foldl_cons,
        pcwt_no_history_permission c _ hperm]
    · simp [ht]
  · intro msgs
    exact collect_middle_congr pre post sd ed _ _ rfl
      (fun s => pcwt_history_error_swallowed c msgs (some ()) s)
  · exact collect_middle_congr pre post sd ed _ _ rfl
      (fun s => pcwt_threads_error_swallowed c s)
  · intro ts1 ts2 t msgs
    refine collect_middle_congr pre post sd ed _ _ rfl (fun s => ?_)
    unfold process_channel_with_threads
    dsimp only
    by_cases hr : c.read_message_history
    · simp only [hr, Bool.not_true, Bool.false_eq_true, if_false]
      rw [List.foldl_append, List.foldl_append, List.foldl_cons, List.foldl_cons]
      rfl
    · simp [hr]

/-- C7: for a window with `end ≥ start`, `collect` sets
`days_in_period ≥ 1` (a `start == end` window gives exactly 1), and
`avg_messages_per_day` is `total_messages / days_in_period`, hence equal to
`total_messages` for a one-point window. -/
theorem days_and_average_spec (guild_channels : List ChannelData)
    (sd ed : Int) (h : sd ≤ ed) :
    1 ≤ (collect guild_channels sd ed).days_in_period ∧
    (sd = ed → (collect guild_channels sd ed).days_in_period = 1) ∧
    avg_messages_per_day (collect guild_channels sd ed) =
      ((collect guild_channels sd ed).total_messages : ℚ) /
        ((collect guild_channels sd ed).days_in_period : ℚ) ∧
    (sd = ed →
      avg_messages_per_day (collect guild_channels sd ed) =
        ((collect guild_channels sd ed).total_messages : ℚ)) := by
  have hd : (collect guild_channels sd ed).days_in_period = days_between sd ed :=
    collect_days guild_channels sd ed
  have h1 : 1 ≤ (collect guild_channels sd ed).days_in_period := by
    rw [hd]; exact days_between_pos sd ed h
  have hone : sd = ed → (collect guild_channels sd ed).days_in_period = 1 := by
    intro he; rw [hd, he, days_between_self]
  have hpos : 0 < (collect guild_channels sd ed).days_in_period := by omega
  refine ⟨h1, hone, ?_, ?_⟩
  · unfold avg_messages_per_day
    rw [if_pos hpos]
  · intro he
    unfold avg_messages_per_day
    rw [if_pos hpos, hone he]
    norm_num

/-- Concrete instance of C7: an empty one-point window over no channels. -/
theorem days_and_average_spec_witness :
    (0 : Int) ≤ 0 ∧ (collect [] 0 0).days_in_period = 1 :=
  ⟨le_refl 0, (days_and_average_spec [] 0 0 (le_refl 0)).2.1 rfl⟩

/-- Counterexample to C8: two messages from distinct author identities (ids
1 and 2) that share the display name Alice are merged into one single entry
of `messages_per_author` with count 2, not two distinct entries — the code
keys its counters by display name, not by identity. -/
theorem distinct_authors_same_name_merged :
    msgAlice1.author_id ≠ msgAlice2.author_id ∧
    (process_message msgAlice2
        (process_message msgAlice1 initData "#general" false)
        "#general" false).messages_per_author = [("Alice", 2)] := by
  exact ⟨by decide, by decide⟩

/-- C8 (amended): `messages_per_author` is keyed by display name, with
`messages_per_author_id` recording the last-seen identity per display name:
two recorded messages whose authors share a display name are merged into
that single display-name entry (its count rises by 2 and the id map keeps
only the second author's id) even when the identities differ, while two
messages with distinct display names are counted under two distinct
entries. -/
theorem display_name_keyed_counting (m1 m2 : Message)
    (s : MessageStatisticsData) (ch1 ch2 : String) (th1 th2 : Bool)
    (h1 : m1.author_bot = some false) (h2 : m2.author_bot = some false) :
    (authorName m1 = authorName m2 →
      counterGet (process_message m2 (process_message m1 s ch1 th1) ch2
          th2).messages_per_author (authorName m1) =
        counterGet s.messages_per_author (authorName m1) + 2 ∧
      dictGet (process_message m2 (process_message m1 s ch1 th1) ch2
          th2).messages_per_author_id (authorName m1) =
        some (toString m2.author_id)) ∧
    (authorName m1 ≠ authorName m2 →
      counterGet (process_message m2 (process_message m1 s ch1 th1) ch2
          th2).messages_per_author (authorName m1) =
        counterGet s.messages_per_author (authorName m1) + 1 ∧
      counterGet (process_message m2 (process_message m1 s ch1 th1) ch2
          th2).messages_per_author (authorName m2) =
        counterGet s.messages_per_author (authorName m2) + 1) := by
  obtain ⟨-, f12, f13, -⟩ := process_message_fields m1 s ch1 th1 h1
  obtain ⟨-, f22, f23, -⟩ :=
    process_message_fields m2 (process_message m1 s ch1 th1) ch2 th2 h2
  constructor
  · intro he
    rw [he] at f12 ⊢
    constructor
    · rw [f22, counterGet_counterAdd_same, f12, counterGet_counterAdd_same]
    · rw [f23, dictGet_dictSet_same]
  · intro hne
    constructor
    · rw [f22, counterGet_counterAdd_ne _ _ _ _ hne, f12,
        counterGet_counterAdd_same]
    · rw [f22, counterGet_counterAdd_same, f12,
        counterGet_counterAdd_ne _ _ _ _ (Ne.symm hne)]

/-- Concrete instance of the amended C8: Alice and Bob stay distinct
entries. -/
theorem display_name_keyed_counting_witness :
    msgAlice1.author_bot = some false ∧ msgBob.author_bot = some false ∧
    counterGet (process_message msgBob
        (process_message msgAlice1 initData "#general" false)
        "#general" false).messages_per_author (authorName msgAlice1) = 1 := by
  refine ⟨rfl, rfl, ?_⟩
  have h := (display_name_keyed_counting msgAlice1 msgBob initData "#general"
    "#general" false false rfl rfl).2 (by decide)
  simpa using h.1

/-- C10: on a non-bot message whose attachment work raises, the message's
own contribution survives — `total_messages`, the author's, the channel's
and (for a thread) the thread's counters are incremented exactly as usual —
while both picture counters are left untouched. -/
theorem attachment_error_isolation (m : Message) (s : MessageStatisticsData)
    (ch : String) (th : Bool) (hb : m.author_bot = some false)
    (he : m.attachments = Except.error ()) :
    (process_message m s ch th).total_messages = s.total_messages + 1 ∧
    counterGet (process_message m s ch th).messages_per_author (authorName m) =
      counterGet s.messages_per_author (authorName m) + 1 ∧
    counterGet (process_message m s ch th).messages_per_channel ch =
      counterGet s.messages_per_channel ch + 1 ∧
    (th = true →
      counterGet (process_message m s ch th).messages_per_thread ch =
        counterGet s.messages_per_thread ch + 1 ∧
      (process_message m s ch th).total_thread_messages =
        s.total_thread_messages + 1) ∧
    (process_message m s ch th).pictures_per_author = s.pictures_per_author ∧
    (process_message m s ch th).total_pictures = s.total_pictures := by
  have him : imageCount m = 0 := by unfold imageCount; rw [he]
  obtain ⟨h1, h2, -, h4, -, h6, -, h8, h9, h10, -⟩ :=
    process_message_fields m s ch th hb
  refine ⟨h1, ?_, ?_, ?_, ?_, ?_⟩
  · rw [h2, counterGet_counterAdd_same]
  · rw [h4, counterGet_counterAdd_same]
  · intro hth
    subst hth
    simp only [if_true] at h6 h8
    exact ⟨by rw [h6, counterGet_counterAdd_same], h8⟩
  · rw [h9, if_pos him]
  · rw [h10, him, Nat.add_zero]

/-- Concrete instance of C10: Alice's failing-attachment message still
counts as a message and contributes no pictures. -/
theorem attachment_error_isolation_witness :
    msgAttachmentError.author_bot = some false ∧
    msgAttachmentError.attachments = Except.error () ∧
    (process_message msgAttachmentError initData "#general" false).total_messages = 1 ∧
    (process_message msgAttachmentError initData "#general" false).total_pictures = 0 := by
  have h := attachment_error_isolation msgAttachmentError initData "#general"
    false rfl rfl
  exact ⟨rfl, rfl, by simpa using h.1, by simpa using h.2.2.2.2.2⟩
